import Mathlib

set_option maxRecDepth 8192

/-!
Shallow embedding of the state-persistence and verifiable-query layer of the
`orga` repository, and proofs about it.

Conventions:
* Rust byte sequences (`Vec<u8>`, `&[u8]`) are `List Nat`; byte-lexicographic
  comparison is the `List Nat` order (`Lex (· < ·)`), which matches Rust's
  `Ord` on byte slices (shorter prefix compares less).
* Rust `Result<T>` is `Except Error T`; a Rust panic is a separate outcome
  constructor, since a panic aborts instead of returning.
* Machine integers are `Nat` with explicit `% 2^w` where overflow matters.
-/

/-- Byte strings: Rust `Vec<u8>` / `&[u8]`. -/
abbrev Bytes := List Nat

/-- The subset of the `orga` error enum (src/error.rs) reachable from the code
modelled here.  Each constructor carries the formatted message string. -/
inductive Error where
  | ABCI : String → Error
  | Query : String → Error
  | Tendermint : String → Error
  | Store : String → Error
  | Downcast : String → Error
  | Poison : String → Error
  | Ed : String → Error
  | App : String → Error
  deriving Repr, DecidableEq

/-- Outcome of running a Rust computation that may return `Ok`, return `Err`,
or panic (abort the process). -/
inductive Outcome (α : Type) where
  | ok : α → Outcome α
  | err : Error → Outcome α
  | panic : String → Outcome α
  deriving Repr, DecidableEq

/-! ## Byte-keyed store model

`MapStore` (the in-memory ordered mapping) is not under `src/`; it is modelled
from the spec: "an ordered mapping from byte sequences (keys) to byte
sequences (values), ordered by byte-lexicographic comparison" (§3), with
overwrite on `put` (§4.3) and iteration "in ascending key order" seeded "at
the first key ≥ start" (§4.3).  The model keeps the association list sorted
by key so that iteration order is the byte-lexicographic order. -/

/-- Modelled from the spec: `MapStore::put` — insert keeping byte-lexicographic
key order, overwriting an existing binding for the same key. -/
def storePut : List (Bytes × Bytes) → Bytes → Bytes → List (Bytes × Bytes)
  | [], k, v => [(k, v)]
  | (k0, v0) :: t, k, v =>
    if k = k0 then (k, v) :: t
    else if k < k0 then (k, v) :: (k0, v0) :: t
    else (k0, v0) :: storePut t k v

/-- Modelled from the spec: `MapStore::get` — exact lookup. -/
def storeGet : List (Bytes × Bytes) → Bytes → Option Bytes
  | [], _ => none
  | (k0, v0) :: t, k => if k = k0 then some v0 else storeGet t k

/-- Modelled from the spec: `MapStore::delete` — remove the binding if present
(deleting an absent key is not an error, §4.3). -/
def storeDelete : List (Bytes × Bytes) → Bytes → List (Bytes × Bytes)
  | [], _ => []
  | (k0, v0) :: t, k => if k = k0 then t else (k0, v0) :: storeDelete t k

/-- Modelled from the spec: `MapStore` ordered iteration from the first key
`≥ start` (§4.3); on a key-sorted store this is a filter. -/
def storeIterFrom (s : List (Bytes × Bytes)) (start : Bytes) : List (Bytes × Bytes) :=
  s.filter (fun e => decide (start ≤ e.1))

/-! ## Codec model

The `Encode`/`Decode` capability (the `ed` crate re-exported as
`crate::encoding`) is not under `src/`; it is modelled from the spec:
"deterministic, self-describing byte serialization for keys and values" (§2).
`encode` is the serialization, `decode` its inverse (`none` on malformed
input).  `encoding_length` equals the length of `encode`'s output, and
`encode_into` writes exactly `encode`'s bytes into a destination writer —
both facts are part of the codec contract the source relies on. -/

structure Codec (α : Type) where
  encode : α → Bytes
  decode : Bytes → Option α

/-- A codec is lawful at a point when decoding its encoding gives it back. -/
abbrev Codec.RoundTrips (c : Codec α) (a : α) : Prop :=
  c.decode (c.encode a) = some a

/-- The u64 codec of the `ed` crate: eight bytes, big-endian
(`u64::to_be_bytes`).  Values are `Nat`s reduced mod `2^64`. -/
def u64Codec : Codec Nat where
  encode n :=
    [n / 2 ^ 56 % 256, n / 2 ^ 48 % 256, n / 2 ^ 40 % 256, n / 2 ^ 32 % 256,
     n / 2 ^ 24 % 256, n / 2 ^ 16 % 256, n / 2 ^ 8 % 256, n % 256]
  decode bs :=
    match bs with
    | [b7, b6, b5, b4, b3, b2, b1, b0] =>
      some (b7 * 2 ^ 56 + b6 * 2 ^ 48 + b5 * 2 ^ 40 + b4 * 2 ^ 32 +
            b3 * 2 ^ 24 + b2 * 2 ^ 16 + b1 * 2 ^ 8 + b0)
    | _ => none

/-- The identity codec on raw byte strings (used to instantiate generic
theorems at a concrete codec). -/
def bytesCodec : Codec Bytes where
  encode b := b
  decode b := some b

/-! ## `encode_key_array` (src/collections/map.rs, lines 119–123)

```rust
fn encode_key_array<K: Encode>(key: &K) -> Result<([u8; 256], usize)> {
    let mut bytes = [0; 256];
    key.encode_into(&mut &mut bytes[..])?;
    Ok((bytes, key.encoding_length()?))
}
```

`encode_into` on a `&mut [u8]` destination copies the encoded bytes into the
slice starting at position 0 and fails when they do not fit (the slice writer
refuses to grow).  `writeAll` models that writer. -/

/-- The fixed-size slice writer: copy `data` into `buf` starting at `pos`;
`none` (an I/O error that `encode_into` propagates) when it does not fit.
The buffer never grows: writes past its end are impossible. -/
def writeAll (buf : Bytes) (pos : Nat) (data : Bytes) : Option (Bytes × Nat) :=
  if pos + data.length ≤ buf.length then
    some (buf.take pos ++ data ++ buf.drop (pos + data.length), pos + data.length)
  else
    none

/-- `encode_key_array` from src/collections/map.rs: encode the key into a
fresh 256-byte zeroed buffer, returning the buffer and the encoding length. -/
def encode_key_array (c : Codec K) (key : K) : Except Error (Bytes × Nat) :=
  match writeAll (List.replicate 256 0) 0 (c.encode key) with
  | none => .error (.Ed "failed to write whole buffer")
  | some (buf, _) => .ok (buf, (c.encode key).length)

/-! ## `Map` operations (src/collections/map.rs) -/

/-- `Map::insert`: encode key and value, write unconditionally. -/
def mapInsert (ck : Codec K) (cv : Codec V) (store : List (Bytes × Bytes))
    (key : K) (value : V) : List (Bytes × Bytes) :=
  storePut store (ck.encode key) (cv.encode value)

/-- `Map::get`: encode the key through the fixed 256-byte buffer, truncate to
the encoded length, look up, decode the value on a hit.  A decode failure of
stored bytes surfaces as an error (`Result` in the source). -/
def mapGet (ck : Codec K) (cv : Codec V) (store : List (Bytes × Bytes))
    (key : K) : Except Error (Option V) :=
  match encode_key_array ck key with
  | .error e => .error e
  | .ok (buf, len) =>
    match storeGet store (buf.take len) with
    | none => .ok none
    | some vb =>
      match cv.decode vb with
      | none => .error (.Ed "failed to decode stored value")
      | some v => .ok (some v)

/-- `Map::delete`: same fixed-buffer key encoding, forward to store delete. -/
def mapDelete (ck : Codec K) (store : List (Bytes × Bytes))
    (key : K) : Except Error (List (Bytes × Bytes)) :=
  match encode_key_array ck key with
  | .error e => .error e
  | .ok (buf, len) => .ok (storeDelete store (buf.take len))

/-- `Map::iter_from` followed by repeated `Iter::next`: scan the store from
the encoded start key and decode each raw pair.  `Iter::next` unwraps the
decodes (a decode failure panics), modelled by `none` entries. -/
def mapIterFrom (ck : Codec K) (cv : Codec V) (store : List (Bytes × Bytes))
    (start : K) : List (Option (K × V)) :=
  (storeIterFrom store (ck.encode start)).map fun e =>
    match ck.decode e.1, cv.decode e.2 with
    | some k, some v => some (k, v)
    | _, _ => none

/-! ## Verified mapping and `ProofStore` (src/merk/backingstore.rs)

`merk::proofs::query::Map` is the external verified-mapping primitive (spec
§1: the `verify` oracle is external; §3: "an immutable, already-verified
key→value mapping").  It is modelled as the set of proven key/value pairs,
listed in ascending key order; `range((Excluded(key), Unbounded))` yields the
pairs with key strictly greater than the bound, in order. -/

structure ProofMap where
  entries : List (Bytes × Bytes)

/-- Exact lookup in the verified mapping. -/
def ProofMap.get (m : ProofMap) (k : Bytes) : Option Bytes :=
  storeGet m.entries k

/-- `range((Bound::Excluded(key), Bound::Unbounded))` over the verified
mapping: all pairs with key strictly above the excluded lower bound. -/
def ProofMap.rangeFromExcluded (m : ProofMap) (k : Bytes) : List (Bytes × Bytes) :=
  m.entries.filter (fun e => decide (k < e.1))

/-- `ProofStore` (src/merk/backingstore.rs, line 165): a read-only store
wrapping a verified mapping. -/
structure ProofStore where
  map : ProofMap

/-- `ProofStore::get` (src/merk/backingstore.rs, lines 168–171). -/
def ProofStore.get (s : ProofStore) (k : Bytes) : Option Bytes :=
  s.map.get k

/-- `ProofStore::get_next` (src/merk/backingstore.rs, lines 173–177): first
item of the range that excludes the lower bound `k`. -/
def ProofStore.get_next (s : ProofStore) (k : Bytes) : Option (Bytes × Bytes) :=
  (s.map.rangeFromExcluded k).head?

/-! ## `BackingStore` (src/merk/backingstore.rs)

The tagged union over the concrete store implementations.  The Merk-backed
mutable variants are modelled as ordered byte mappings (their `put`/`delete`
simply delegate); the `ProofBuilder` payload is irrelevant to write
operations, which panic on that variant. -/

/-- Modelled from the spec: `NullStore`'s `Write` implementation lives in
`crate::store`, which is not under `src/`.  Per spec §3 the null variant is
the `ReadOnlyEmpty` variant and "put/delete on a read-only variant … must
abort, never silently no-op" (§3, §8). -/
def nullStorePut (_key _value : Bytes) : Outcome Unit :=
  .panic "tried to write to null store"

/-- Modelled from the spec: see `nullStorePut`. -/
def nullStoreDelete (_key : Bytes) : Outcome Unit :=
  .panic "tried to delete from null store"

inductive BackingStore where
  | wrappedMerk (entries : List (Bytes × Bytes))
  | proofBuilder (inner : List (Bytes × Bytes))
  | merk (entries : List (Bytes × Bytes))
  | mapStore (entries : List (Bytes × Bytes))
  | proofMap (store : ProofStore)
  | null

/-- The variants the spec classifies as read-only (§3): the
proof-reconstructed mapping, the proof builder, and the null/empty store. -/
def BackingStore.isReadOnly : BackingStore → Bool
  | .proofBuilder _ => true
  | .proofMap _ => true
  | .null => true
  | _ => false

/-- `impl Write for BackingStore`, `put` (src/merk/backingstore.rs, lines
61–77): dispatch on the variant; `ProofBuilder` and `ProofMap` panic
outright, `Null` delegates to `NullStore`. -/
def BackingStore.put : BackingStore → Bytes → Bytes → Outcome BackingStore
  | .wrappedMerk s, k, v => .ok (.wrappedMerk (storePut s k v))
  | .proofBuilder _, _, _ => .panic "put() is not implemented for ProofBuilder"
  | .merk s, k, v => .ok (.merk (storePut s k v))
  | .mapStore s, k, v => .ok (.mapStore (storePut s k v))
  | .proofMap _, _, _ => .panic "put() is not implemented for ProofMap"
  | .null, k, v =>
    match nullStorePut k v with
    | .ok _ => .ok .null
    | .err e => .err e
    | .panic m => .panic m

/-- `impl Write for BackingStore`, `delete` (src/merk/backingstore.rs, lines
78–95). -/
def BackingStore.delete : BackingStore → Bytes → Outcome BackingStore
  | .wrappedMerk s, k => .ok (.wrappedMerk (storeDelete s k))
  | .proofBuilder _, _ => .panic "delete() is not implemented for ProofBuilder"
  | .merk s, k => .ok (.merk (storeDelete s k))
  | .mapStore s, k => .ok (.mapStore (storeDelete s k))
  | .proofMap _, _ => .panic "delete() is not implemented for ProofMap"
  | .null, k =>
    match nullStoreDelete k with
    | .ok _ => .ok .null
    | .err e => .err e
    | .panic m => .panic m

/-! ## The verified query pipeline (src/abci/tendermint_client.rs)

`TendermintAdapter::query` (lines 146–202), modelled from the point the
remote response `res` is in hand.  The network round trip, the application
state type `T`, the proof-verification oracle, `T::load` together with the
subsequent `state.attach`, and the caller's `check` callback are parameters.
The response-capture slot update (lines 160–165) is modelled separately with
`with_response`. -/

structure AbciQuery where
  code : Nat
  log : String
  value : Bytes
  deriving Repr, DecidableEq

/-- Rust slice indexing `v[lo..hi]`: `none` models the out-of-range panic. -/
def sliceRange (v : Bytes) (lo hi : Nat) : Option Bytes :=
  if lo ≤ hi ∧ hi ≤ v.length then some ((v.drop lo).take (hi - lo)) else none

/-- Modelled from the spec: `ABCIPrefixedProofStore` lives in `crate::merk`,
not under `src/`.  Per spec §4.5 step 5 and §6 ("Root state key: the empty
byte sequence"), the root state blob is looked up directly at the queried key
of the verified mapping (the spec describes no key transformation). -/
def abciPrefixedGet (m : ProofMap) (k : Bytes) : Option Bytes :=
  m.get k

/-- `TendermintAdapter::query` after the response arrives.  Note the root-hash
extraction: `res.value[0..32]` is a Rust range-index that panics when the
payload is shorter than 32 bytes; the `try_into` error arm (lines 176–180,
`Error::Tendermint("Cannot convert result to fixed size array")`) can never
run, because a slice produced by `[0..32]` always has exactly 32 bytes. -/
def adapterQuery (verify : Bytes → Bytes → Except Error ProofMap)
    (load : ProofMap → Bytes → Except Error σ) (check : σ → Except Error ρ)
    (res : AbciQuery) : Outcome ρ :=
  if res.code ≠ 0 then
    .err (.Query ("code " ++ toString res.code ++ ": " ++ res.log))
  else
    match sliceRange res.value 0 32 with
    | none => .panic "range end index 32 out of range for slice"
    | some rootHash =>
      let proofBytes := res.value.drop 32
      match verify proofBytes rootHash with
      | .error e => .err e
      | .ok map =>
        match abciPrefixedGet map [] with
        | none => .err (.ABCI "Missing root value")
        | some rootValue =>
          match load map rootValue with
          | .error e => .err e
          | .ok state =>
            match check state with
            | .error e => .err e
            | .ok r => .ok r

/-- `TendermintClient::with_response` (src/abci/tendermint_client.rs, lines
59–81): allocate a fresh response-capture slot (initially empty), run the
closure against a client wired to that slot, propagate the closure's error,
otherwise take the slot's content — an empty slot means no query was
performed inside the closure.  The closure is modelled as a function from the
slot's initial content to its result together with the slot's final content
(each query performed inside it replaces the slot with the raw response). -/
def with_response (f : Option AbciQuery → Except Error ρ × Option AbciQuery) :
    Except Error (ρ × AbciQuery) :=
  match f none with
  | (.error e, _) => .error e
  | (.ok r, slot) =>
    match slot with
    | none => .error (.Query "No query preformed in closure")
    | some res => .ok (r, res)

/-! ## `StateMachine::step_flush` (src/state_machine.rs, lines 13–25)

```rust
let mut flush_store = MapStore::wrap(store);
match self.step(action, &mut flush_store) {
    Err(err) => Err(err),
    Ok(res) => { flush_store.finish().flush(store)?; Ok(res) }
}
```

Modelled from the spec for the parts outside `src/`: `MapStore::wrap` is the
"external caching layer" of §3 — a wrapper that reads through to the backing
store but buffers every `put`/`delete` in its own in-memory map (a deletion
marker for `delete`), and whose `finish().flush(target)` replays the buffered
mutations onto the target.  The wrapped store is the only handle `step`
receives, so `step` is modelled as a function of the (read-only) backing
contents and the current write buffer. -/

/-- The wrapper's write buffer: newest entry first; `none` marks deletion. -/
abbrev WriteBuffer := List (Bytes × Option Bytes)

/-- Modelled from the spec: buffered read — a buffered write (or deletion)
shadows the backing store. -/
def bufGet (backing : List (Bytes × Bytes)) (buf : WriteBuffer) (k : Bytes) :
    Option Bytes :=
  match buf.find? (fun e => e.1 = k) with
  | some e => e.2
  | none => storeGet backing k

/-- Modelled from the spec: buffered `put`. -/
def bufPut (buf : WriteBuffer) (k v : Bytes) : WriteBuffer :=
  (k, some v) :: buf

/-- Modelled from the spec: buffered `delete` (a deletion marker). -/
def bufDelete (buf : WriteBuffer) (k : Bytes) : WriteBuffer :=
  (k, none) :: buf

/-- Modelled from the spec: `finish().flush(target)` — replay the buffered
mutations (oldest first) onto the target store. -/
def flushBuffer (buf : WriteBuffer) (target : List (Bytes × Bytes)) :
    List (Bytes × Bytes) :=
  buf.foldr
    (fun e st =>
      match e.2 with
      | some v => storePut st e.1 v
      | none => storeDelete st e.1)
    target

/-- `StateMachine::step_flush`: run `step` against a fresh write-buffering
wrapper of `store`; on error return it with the store untouched, on success
flush the buffered writes into the store. -/
def step_flush (step : α → List (Bytes × Bytes) → WriteBuffer →
      Except Error (ρ × WriteBuffer))
    (action : α) (store : List (Bytes × Bytes)) :
    Except Error ρ × List (Bytes × Bytes) :=
  match step action store [] with
  | .error e => (.error e, store)
  | .ok (res, buf) => (.ok res, flushBuffer buf store)

/-- The `CounterSM` test state machine from src/state_machine.rs: store `n`
under key `"n"`, read the count under `"count"` (0 when absent, else the
first byte), fail when `count ≠ n`, else store `count + 1` and return it. -/
def counterStep (n : Nat) (backing : List (Bytes × Bytes)) (buf : WriteBuffer) :
    Except Error (Nat × WriteBuffer) :=
  let buf1 := bufPut buf [110] [n % 256]
  let count :=
    match bufGet backing buf1 [99, 111, 117, 110, 116] with
    | none => 0
    | some vec => vec.headD 0
  if count ≠ n then .error (.App "Invalid count")
  else .ok (count + 1, bufPut buf1 [99, 111, 117, 110, 116] [(count + 1) % 256])

/-! ## `EntryMap` (src/collections/entry_map.rs)

`EntryMap` wraps the typed `Map` of the newer collections API
(`contains_key`/`get`/`remove`), whose source is not under `src/`; that inner
map is modelled from the spec (§4.3) as a typed dictionary with exact lookup.
The `Entry` capability (§3, §4.4) splits a record `T` losslessly into a
`(Key, Value)` pair; it is passed explicitly as `intoEntry`. -/

/-- Modelled from the spec: the typed map's exact lookup. -/
def typedGet [DecidableEq K] : List (K × V) → K → Option V
  | [], _ => none
  | (k0, v0) :: t, k => if k = k0 then some v0 else typedGet t k

/-- Modelled from the spec: the typed map's insert (overwrite semantics). -/
def typedInsert [DecidableEq K] : List (K × V) → K → V → List (K × V)
  | [], k, v => [(k, v)]
  | (k0, v0) :: t, k, v =>
    if k = k0 then (k, v) :: t else (k0, v0) :: typedInsert t k v

/-- Modelled from the spec: the typed map's `contains_key`. -/
def typedContainsKey [DecidableEq K] (m : List (K × V)) (k : K) : Bool :=
  (typedGet m k).isSome

/-- `EntryMap::insert` (src/collections/entry_map.rs, lines 81–84): split the
entry and delegate to the map's insert. -/
def entryMapInsert [DecidableEq K] (intoEntry : T → K × V)
    (m : List (K × V)) (entry : T) : List (K × V) :=
  typedInsert m (intoEntry entry).1 (intoEntry entry).2

/-- `EntryMap::contains_entry_key` (src/collections/entry_map.rs, lines
86–91): split the entry, check only the key portion. -/
def entryMapContainsEntryKey [DecidableEq K] (intoEntry : T → K × V)
    (m : List (K × V)) (entry : T) : Bool :=
  typedContainsKey m (intoEntry entry).1

/-- `EntryMap::contains` (src/collections/entry_map.rs, lines 115–132): key
must exist and the stored value must equal the entry's value portion. -/
def entryMapContains [DecidableEq K] [DecidableEq V] (intoEntry : T → K × V)
    (m : List (K × V)) (entry : T) : Bool :=
  match typedContainsKey m (intoEntry entry).1 with
  | true =>
    match typedGet m (intoEntry entry).1 with
    | some stored => decide (stored = (intoEntry entry).2)
    | none => false
  | false => false

/-- Keys listed in strictly ascending byte-lexicographic order — the shape of
a verified mapping's entry list. -/
def sortedKeys (l : List (Bytes × Bytes)) : Prop :=
  l.Pairwise (fun a b => a.1 < b.1)

/-! ## Helper lemmas -/

theorem storeGet_storePut (s : List (Bytes × Bytes)) (k v : Bytes) :
    storeGet (storePut s k v) k = some v := by
  induction s with
  | nil => simp [storePut, storeGet]
  | cons hd t ih =>
    obtain ⟨k0, v0⟩ := hd
    by_cases hk : k = k0
    · simp [storePut, storeGet, hk]
    · by_cases hlt : k < k0
      · simp [storePut, storeGet, hk, hlt]
      · simp [storePut, storeGet, hk, hlt, ih]

theorem typedGet_typedInsert [DecidableEq K] (m : List (K × V)) (k : K) (v : V) :
    typedGet (typedInsert m k v) k = some v := by
  induction m with
  | nil => simp [typedInsert, typedGet]
  | cons hd t ih =>
    obtain ⟨k0, v0⟩ := hd
    by_cases hk : k = k0
    · simp [typedInsert, typedGet, hk]
    · simp [typedInsert, typedGet, hk, ih]

/-- On a key-sorted entry list, the head of a filtered sublist is a member,
satisfies the filter, and has the smallest key among entries satisfying it. -/
theorem head_filter_least {l : List (Bytes × Bytes)}
    (hs : l.Pairwise (fun a b => a.1 < b.1)) {p : Bytes × Bytes → Bool}
    {x : Bytes × Bytes} (hx : (l.filter p).head? = some x) :
    x ∈ l ∧ p x = true ∧ ∀ y ∈ l, p y = true → x.1 ≤ y.1 := by
  induction l with
  | nil => simp [List.filter] at hx
  | cons a t ih =>
    rw [List.pairwise_cons] at hs
    obtain ⟨ha, ht⟩ := hs
    by_cases hpa : p a = true
    · rw [List.filter_cons_of_pos hpa] at hx
      simp only [List.head?] at hx
      have hax : a = x := Option.some.inj hx
      subst hax
      refine ⟨List.mem_cons_self a t, hpa, ?_⟩
      intro y hy _
      rcases List.mem_cons.mp hy with rfl | hyt
      · exact le_refl _
      · exact le_of_lt (ha y hyt)
    · rw [List.filter_cons_of_neg hpa] at hx
      obtain ⟨hmem, hpx, hmin⟩ := ih ht hx
      refine ⟨List.mem_cons_of_mem a hmem, hpx, ?_⟩
      intro y hy hpy
      rcases List.mem_cons.mp hy with rfl | hyt
      · exact absurd hpy hpa
      · exact hmin y hyt hpy

theorem writeAll_fits (buf data : Bytes) (h : data.length ≤ buf.length) :
    writeAll buf 0 data = some (data ++ buf.drop data.length, data.length) := by
  simp only [writeAll, Nat.zero_add, List.take_zero, List.nil_append, if_pos h]

theorem writeAll_overflow (buf data : Bytes) (h : buf.length < data.length) :
    writeAll buf 0 data = none := by
  simp only [writeAll, Nat.zero_add]
  rw [if_neg (by omega)]

theorem encode_key_array_fits (c : Codec K) (k : K)
    (hlen : (c.encode k).length ≤ 256) :
    encode_key_array c k =
      .ok (c.encode k ++ (List.replicate 256 (0 : Nat)).drop (c.encode k).length,
        (c.encode k).length) := by
  unfold encode_key_array
  rw [writeAll_fits _ _ (by rw [List.length_replicate]; exact hlen)]

theorem encode_key_array_overflow (c : Codec K) (k : K)
    (hlen : 256 < (c.encode k).length) :
    encode_key_array c k = .error (.Ed "failed to write whole buffer") := by
  unfold encode_key_array
  rw [writeAll_overflow _ _ (by rw [List.length_replicate]; exact hlen)]

/-! ## Claim theorems -/

/-- Claim C5: inserting `(k, v)` into a `Map` and then getting `k` returns
`Some v`: the fixed-buffer key encoding used by `get` truncates to exactly the
key bytes that `insert` wrote, and the stored value bytes decode back to `v`.
Hypotheses: the encoded key fits the 256-byte buffer (the Map contract's key
invariant, spec §3) and the value codec round-trips at `v`. -/
theorem map_insert_get_roundtrip (ck : Codec K) (cv : Codec V)
    (store : List (Bytes × Bytes)) (k : K) (v : V)
    (hlen : (ck.encode k).length ≤ 256) (hv : cv.RoundTrips v) :
    (∃ buf, encode_key_array ck k = .ok (buf, (ck.encode k).length) ∧
        buf.take (ck.encode k).length = ck.encode k) ∧
    mapGet ck cv (mapInsert ck cv store k v) k = .ok (some v) := by
  have harr := encode_key_array_fits ck k hlen
  have htake : (ck.encode k ++
      (List.replicate 256 (0 : Nat)).drop (ck.encode k).length).take
        (ck.encode k).length = ck.encode k :=
    List.take_left _ _
  refine ⟨⟨_, harr, htake⟩, ?_⟩
  unfold mapGet
  rw [harr]
  dsimp only
  rw [htake]
  unfold mapInsert
  rw [storeGet_storePut]
  dsimp only
  rw [hv]

/-- Closed instantiation of `map_insert_get_roundtrip` at the u64 codec and
the repository's own test values (src/collections/map.rs, test `simple`). -/
theorem map_insert_get_roundtrip_witness :
    (u64Codec.encode 1234).length ≤ 256 ∧ u64Codec.RoundTrips 5678 ∧
    mapGet u64Codec u64Codec (mapInsert u64Codec u64Codec [] 1234 5678) 1234 =
      .ok (some 5678) :=
  ⟨by decide, by decide,
    (map_insert_get_roundtrip u64Codec u64Codec [] 1234 5678 (by decide)
      (by decide)).2⟩

/-- Claim C6: on an empty `Map<u64, u64>`, inserting `{123: 456, 100: 100,
400: 100}` in that order and then iterating from 101 yields exactly
`(123, 456)` followed by `(400, 100)` and then ends: ascending key order,
starting at the first key `≥ 101`, omitting keys below the start. -/
theorem map_iter_from_order :
    mapIterFrom u64Codec u64Codec
      (mapInsert u64Codec u64Codec
        (mapInsert u64Codec u64Codec
          (mapInsert u64Codec u64Codec [] 123 456) 100 100) 400 100) 101 =
    [some (123, 456), some (400, 100)] := by decide

/-- Claim C8: `encode_key_array` (the key-encoding path of `Map::get` and
`Map::delete`) fails with an encoding error exactly when the key's encoding
exceeds 256 bytes; on success the returned buffer is exactly 256 bytes long
(the slice writer cannot write past it), the returned length is the encoding
length, and the encoded bytes occupy exactly the prefix
`[0, encoded_length)` of the buffer. -/
theorem encode_key_array_spec (c : Codec K) (k : K) :
    (∀ buf len, encode_key_array c k = .ok (buf, len) →
        buf.length = 256 ∧ len = (c.encode k).length ∧
        buf.take len = c.encode k) ∧
    (256 < (c.encode k).length →
        encode_key_array c k = .error (.Ed "failed to write whole buffer")) ∧
    ((c.encode k).length ≤ 256 →
        ∃ buf, encode_key_array c k = .ok (buf, (c.encode k).length)) := by
  by_cases hlen : (c.encode k).length ≤ 256
  · have harr := encode_key_array_fits c k hlen
    refine ⟨?_, fun hgt => absurd hlen (by omega), fun _ => ⟨_, harr⟩⟩
    intro buf len hok
    rw [harr] at hok
    injection hok with h1
    have hbuf : buf = c.encode k ++
        (List.replicate 256 (0 : Nat)).drop (c.encode k).length :=
      (congrArg Prod.fst h1).symm
    have hlen2 : len = (c.encode k).length := (congrArg Prod.snd h1).symm
    subst hbuf
    subst hlen2
    refine ⟨?_, rfl, List.take_left _ _⟩
    rw [List.length_append, List.length_drop, List.length_replicate]
    omega
  · have harr := encode_key_array_overflow c k (by omega)
    refine ⟨?_, fun _ => harr, fun hle => absurd hle hlen⟩
    intro buf len hok
    rw [harr] at hok
    exact Except.noConfusion hok

/-- Closed instantiation of `encode_key_array_spec`: a 300-byte key encoding
is rejected, a 3-byte key encoding succeeds with length 3. -/
theorem encode_key_array_spec_witness :
    encode_key_array bytesCodec (List.replicate 300 7) =
      .error (.Ed "failed to write whole buffer") ∧
    ∃ buf, encode_key_array bytesCodec [1, 2, 3] = .ok (buf, 3) :=
  ⟨(encode_key_array_spec bytesCodec (List.replicate 300 7)).2.1 (by decide),
   (encode_key_array_spec bytesCodec [1, 2, 3]).2.2 (by decide)⟩

/-- Claim C2: `put` and `delete` on a read-only `BackingStore` variant (the
proof-reconstructed `ProofMap` variant, the `ProofBuilder` variant, and the
null/empty variant) panic for every key and value, and in particular never
return success while silently not persisting the write. -/
theorem backingstore_readonly_write_panics (bs : BackingStore) (k v : Bytes)
    (h : bs.isReadOnly = true) :
    (∃ m, bs.put k v = .panic m) ∧ (∃ m, bs.delete k = .panic m) ∧
    (∀ bs2, bs.put k v ≠ .ok bs2) ∧ (∀ bs2, bs.delete k ≠ .ok bs2) := by
  cases bs with
  | wrappedMerk s => exact absurd h (by simp [BackingStore.isReadOnly])
  | merk s => exact absurd h (by simp [BackingStore.isReadOnly])
  | mapStore s => exact absurd h (by simp [BackingStore.isReadOnly])
  | proofBuilder s =>
    refine ⟨⟨_, rfl⟩, ⟨_, rfl⟩, ?_, ?_⟩ <;> intro bs2 hc <;>
      simp [BackingStore.put, BackingStore.delete] at hc
  | proofMap s =>
    refine ⟨⟨_, rfl⟩, ⟨_, rfl⟩, ?_, ?_⟩ <;> intro bs2 hc <;>
      simp [BackingStore.put, BackingStore.delete] at hc
  | null =>
    refine ⟨⟨_, rfl⟩, ⟨_, rfl⟩, ?_, ?_⟩ <;> intro bs2 hc <;>
      simp [BackingStore.put, BackingStore.delete,
        nullStorePut, nullStoreDelete] at hc

/-- Closed instantiation of `backingstore_readonly_write_panics` at the
proof-reconstructed variant with an empty verified mapping. -/
theorem backingstore_readonly_write_panics_witness :
    (BackingStore.proofMap ⟨⟨[]⟩⟩).isReadOnly = true ∧
    (∃ m, (BackingStore.proofMap ⟨⟨[]⟩⟩).put [0] [1] = .panic m) ∧
    (∃ m, (BackingStore.proofMap ⟨⟨[]⟩⟩).delete [0] = .panic m) :=
  ⟨rfl, (backingstore_readonly_write_panics (.proofMap ⟨⟨[]⟩⟩) [0] [1] rfl).1,
    (backingstore_readonly_write_panics (.proofMap ⟨⟨[]⟩⟩) [0] [1] rfl).2.1⟩

/-- Claim C4: on a proof-reconstructed store whose verified mapping lists its
entries in ascending key order, `get_next k` returns the entry whose key is
the byte-lexicographically smallest key strictly greater than `k` (the lower
bound itself excluded), or `none` when no key exceeds `k`. -/
theorem proofstore_get_next_spec (s : ProofStore) (k : Bytes)
    (hs : sortedKeys s.map.entries) :
    (∀ k2 v2, s.get_next k = some (k2, v2) →
        (k2, v2) ∈ s.map.entries ∧ k < k2 ∧
        ∀ p ∈ s.map.entries, k < p.1 → k2 ≤ p.1) ∧
    (s.get_next k = none → ∀ p ∈ s.map.entries, ¬ k < p.1) := by
  constructor
  · intro k2 v2 hx
    obtain ⟨hmem, hp, hmin⟩ :=
      head_filter_least hs (p := fun e => decide (k < e.1)) hx
    refine ⟨hmem, by simpa using hp, ?_⟩
    intro p hpmem hklt
    exact hmin p hpmem (by simpa using hklt)
  · intro hnone p hpmem hklt
    unfold ProofStore.get_next ProofMap.rangeFromExcluded at hnone
    rw [List.head?_eq_none_iff] at hnone
    rw [List.filter_eq_nil_iff] at hnone
    exact absurd (by simpa using hklt) (by simpa using hnone p hpmem)

/-- Closed instantiation of `proofstore_get_next_spec` on a two-entry
verified mapping: the strict successor of `[1]` is `[2]`. -/
theorem proofstore_get_next_spec_witness :
    ProofStore.get_next ⟨⟨[([1], [10]), ([2], [20])]⟩⟩ [1] = some ([2], [20]) ∧
    (([2], [20]) ∈ [(([1] : Bytes), ([10] : Bytes)), ([2], [20])] ∧
      ([1] : Bytes) < [2] ∧
      ∀ p ∈ [(([1] : Bytes), ([10] : Bytes)), ([2], [20])],
        ([1] : Bytes) < p.1 → ([2] : Bytes) ≤ p.1) :=
  ⟨by decide,
    (proofstore_get_next_spec ⟨⟨[([1], [10]), ([2], [20])]⟩⟩ [1]
      (by simp [sortedKeys]; decide)).1 [2] [20] (by decide)⟩

/-- Claim C1 (refuted — code bug): for a response that passes the status
check but whose payload is shorter than 32 bytes, `TendermintAdapter::query`
does NOT return the distinct malformed-root conversion error
(`Error::Tendermint("Cannot convert result to fixed size array")`): the
range-index `res.value[0..32]` panics first, so the conversion-error arm is
dead code and the operation aborts instead of returning an error. -/
theorem query_short_payload_panics {σ ρ : Type}
    (verify : Bytes → Bytes → Except Error ProofMap)
    (load : ProofMap → Bytes → Except Error σ) (check : σ → Except Error ρ)
    (res : AbciQuery) (hcode : res.code = 0) (hshort : res.value.length < 32) :
    adapterQuery verify load check res =
      .panic "range end index 32 out of range for slice" := by
  unfold adapterQuery
  rw [if_neg (by simp [hcode])]
  have hslice : sliceRange res.value 0 32 = none := by
    unfold sliceRange
    rw [if_neg (by omega)]
  rw [hslice]

/-- Closed instantiation of `query_short_payload_panics`: a success-status
response with an empty payload makes the query pipeline panic. -/
theorem query_short_payload_panics_witness :
    adapterQuery (fun _ _ => .ok ⟨[]⟩)
      (fun _ _ => (.ok () : Except Error Unit))
      (fun _ => (.ok () : Except Error Unit)) ⟨0, "", []⟩ =
      .panic "range end index 32 out of range for slice" :=
  query_short_payload_panics _ _ _ ⟨0, "", []⟩ rfl (by decide)

/-- Claim C3: when the status check passes, the payload carries a root hash,
the proof verifies to a mapping, and that verified mapping has no entry at
the empty byte key, the query operation fails with the ABCI-layer error
`Missing root value` instead of delivering a state snapshot. -/
theorem query_missing_root_error {σ ρ : Type}
    (verify : Bytes → Bytes → Except Error ProofMap)
    (load : ProofMap → Bytes → Except Error σ) (check : σ → Except Error ρ)
    (res : AbciQuery) (map : ProofMap)
    (hcode : res.code = 0) (hlen : 32 ≤ res.value.length)
    (hverify : verify (res.value.drop 32) (res.value.take 32) = .ok map)
    (hroot : map.get [] = none) :
    adapterQuery verify load check res = .err (.ABCI "Missing root value") := by
  unfold adapterQuery
  rw [if_neg (by simp [hcode])]
  have hslice : sliceRange res.value 0 32 = some (res.value.take 32) := by
    unfold sliceRange
    rw [if_pos (by omega)]
    simp
  rw [hslice]
  dsimp only
  rw [hverify]
  dsimp only
  unfold abciPrefixedGet
  rw [hroot]

/-- Closed instantiation of `query_missing_root_error`: a 32-byte payload
whose proof verifies to the empty mapping yields the missing-root error. -/
theorem query_missing_root_error_witness :
    adapterQuery (fun _ _ => .ok ⟨[]⟩)
      (fun _ _ => (.ok () : Except Error Unit))
      (fun _ => (.ok () : Except Error Unit)) ⟨0, "", List.replicate 32 0⟩ =
      .err (.ABCI "Missing root value") :=
  query_missing_root_error (fun _ _ => .ok ⟨[]⟩) _ _ ⟨0, "", List.replicate 32 0⟩
    ⟨[]⟩ rfl (by decide) rfl rfl

/-- Claim C7: after storing an entry whose key portion is `k` and value
portion is `v`, querying with an entry that has the same key portion `k` but
a different value portion `v2`: `contains_entry_key` returns `true` (it
checks key existence only, ignoring the value portion), while `contains`
returns `false` (it additionally requires the stored value to equal the
query entry's value portion). -/
theorem entrymap_contains_asymmetry {T K V : Type} [DecidableEq K]
    [DecidableEq V] (intoEntry : T → K × V) (m : List (K × V))
    (stored queried : T) (k : K) (v v2 : V)
    (hstored : intoEntry stored = (k, v)) (hq : intoEntry queried = (k, v2))
    (hne : v2 ≠ v) :
    entryMapContainsEntryKey intoEntry (entryMapInsert intoEntry m stored)
      queried = true ∧
    entryMapContains intoEntry (entryMapInsert intoEntry m stored)
      queried = false := by
  have hget : typedGet (entryMapInsert intoEntry m stored) k = some v := by
    unfold entryMapInsert
    rw [hstored]
    exact typedGet_typedInsert m k v
  constructor
  · unfold entryMapContainsEntryKey typedContainsKey
    rw [hq]
    dsimp only
    rw [hget]
    rfl
  · unfold entryMapContains typedContainsKey
    rw [hq]
    dsimp only
    rw [hget]
    show decide (v = v2) = false
    simp only [decide_eq_false_iff_not]
    intro h
    exact hne h.symm

/-- Closed instantiation of `entrymap_contains_asymmetry` at the repository's
own test values (entry key 12, stored value 24, queried value 13). -/
theorem entrymap_contains_asymmetry_witness :
    entryMapContainsEntryKey (fun e : Nat × Nat => e)
      (entryMapInsert (fun e : Nat × Nat => e) [] (12, 24)) (12, 13) = true ∧
    entryMapContains (fun e : Nat × Nat => e)
      (entryMapInsert (fun e : Nat × Nat => e) [] (12, 24)) (12, 13) = false :=
  entrymap_contains_asymmetry (fun e => e) [] (12, 24) (12, 13) 12 24 13
    rfl rfl (by decide)

/-- Claim C9: `StateMachine::step_flush` is atomic on error — the inner step
runs against a write-buffering wrapper of the backing store, so when it
returns an error nothing has been flushed and the backing store's contents
are exactly as they were before the call. -/
theorem step_flush_error_atomic {α ρ : Type}
    (step : α → List (Bytes × Bytes) → WriteBuffer →
      Except Error (ρ × WriteBuffer))
    (action : α) (store : List (Bytes × Bytes)) (e : Error)
    (h : (step_flush step action store).1 = .error e) :
    (step_flush step action store).2 = store := by
  unfold step_flush at h ⊢
  cases hstep : step action store [] with
  | error e2 => rfl
  | ok res =>
    obtain ⟨r0, buf0⟩ := res
    rw [hstep] at h
    exact Except.noConfusion h

/-- Closed instantiation of `step_flush_error_atomic` at the repository's own
`CounterSM` test (src/state_machine.rs, test `step_counter_error_flusher`):
stepping with the invalid action 100 on an empty store errors and leaves the
store empty. -/
theorem step_flush_error_atomic_witness :
    (step_flush counterStep 100 []).1 = .error (.App "Invalid count") ∧
    (step_flush counterStep 100 []).2 = [] :=
  ⟨by rfl, step_flush_error_atomic counterStep 100 [] (.App "Invalid count")
    (by rfl)⟩

/-- Claim C10: `TendermintClient::with_response` allocates a fresh empty
response-capture slot and runs the closure against it; when the closure
completes successfully without performing a query (the slot stays empty) it
returns a Query error, and when a query was performed it returns the
closure's result paired with the captured raw wire response. -/
theorem with_response_spec {ρ : Type}
    (f : Option AbciQuery → Except Error ρ × Option AbciQuery)
    (r : ρ) (slot : Option AbciQuery) (h : f none = (.ok r, slot)) :
    (slot = none →
      with_response f = .error (.Query "No query preformed in closure")) ∧
    (∀ res, slot = some res → with_response f = .ok (r, res)) := by
  constructor
  · intro hslot
    unfold with_response
    rw [h, hslot]
  · intro res hslot
    unfold with_response
    rw [h, hslot]

/-- Closed instantiation of `with_response_spec`: a query-less closure yields
the Query error; a closure that performed a query yields its result paired
with the captured response. -/
theorem with_response_spec_witness :
    with_response (fun slot => ((.ok 7 : Except Error Nat), slot)) =
      .error (.Query "No query preformed in closure") ∧
    with_response (fun _ => ((.ok 7 : Except Error Nat), some ⟨0, "ok", [5]⟩)) =
      .ok (7, ⟨0, "ok", [5]⟩) :=
  ⟨(with_response_spec (fun slot => (.ok 7, slot)) 7 none rfl).1 rfl,
    (with_response_spec (fun _ => (.ok 7, some ⟨0, "ok", [5]⟩)) 7
      (some ⟨0, "ok", [5]⟩) rfl).2 ⟨0, "ok", [5]⟩ rfl⟩
